import Mathlib

/-!
# Verification of the todo-tracker ranked status-transition store

Shallow embedding of `pkg/db` (db.go, models.go, base.sql) of the
todo-tracker repository.  The in-memory mirror (`Database.Statuses`,
each `Status.Todos` slice, `Database.Labels`) is modelled as a value
`Database`; the five statuses seeded by base.sql are the inductive
`SName`.  Go pointer aliasing is resolved by identifying a `*Todo`
with the element of its status list that carries its id: every
operation dereferences a todo reference (`Option Nat`, `none` = nil
pointer) through `findTodo`, and field writes through the pointer are
modelled by rewriting that element in place.  This identification
agrees with the Go heap exactly on states where each status list holds
todos with pairwise distinct ids at their own rank positions, which is
the invariant proved below for every reachable state.

Durable storage is not modelled as data; what matters to the mirror is
only whether the SQL writes and the commit succeed, so each operation
takes a boolean `txOk` oracle: `txOk = false` means some durable
write, commit, or id retrieval failed (the operation then returns the
wrapped storage error, possibly after rollback, before any mirror
mutation, exactly as in db.go).  A Go runtime panic (nil pointer
dereference, slice index out of range) is modelled by the
`OpResult.crash` constructor.  Timestamps are opaque naturals.
-/

/-- The five status names seeded by base.sql / models.go
(`StatusOpen`, `StatusClosed`, `StatusOnHold`, `StatusDone`,
`StatusAbandoned`).  In the store each status also has a distinct
numeric id (1..5), so equality of ids coincides with equality of
names; the embedding therefore identifies a `*Status` with its name. -/
inductive SName : Type where
  | sopen : SName
  | sclosed : SName
  | sonHold : SName
  | sdone : SName
  | sabandoned : SName
deriving DecidableEq, Repr

instance : Fintype SName :=
  ⟨⟨{.sopen, .sclosed, .sonHold, .sdone, .sabandoned}, by decide⟩, by
    intro x; cases x <;> decide⟩

/-- models.go `Label`: identity plus name. -/
structure Label : Type where
  id : Nat
  name : String
deriving DecidableEq, Repr

/-- models.go `Todo`.  `rank` is a Go `int`, hence `Int` here; the
`Status` back-pointer is the status name; timestamps are opaque. -/
structure Todo : Type where
  id : Nat
  title : String
  description : String
  labels : List Label
  rank : Int
  status : SName
  createdDatetime : Nat
  updatedDatetime : Nat
deriving DecidableEq, Repr

/-- The in-memory mirror of db.go `Database`: the five `Status.Todos`
slices (keyed by status name, as in the `Statuses` map) and the
`Labels` slice.  The global `Todos` slice is only used while loading
and aliases the same `*Todo` objects, so it carries no extra state. -/
structure Database : Type where
  openTodos : List Todo
  closedTodos : List Todo
  onHoldTodos : List Todo
  doneTodos : List Todo
  abandonedTodos : List Todo
  labels : List Label
deriving DecidableEq, Repr

/-- `d.Statuses[name].Todos`. -/
def Database.todosOf (d : Database) : SName → List Todo
  | .sopen => d.openTodos
  | .sclosed => d.closedTodos
  | .sonHold => d.onHoldTodos
  | .sdone => d.doneTodos
  | .sabandoned => d.abandonedTodos

/-- Assignment `status.Todos = l` for the status named `s`. -/
def Database.setTodos (d : Database) (s : SName) (l : List Todo) : Database :=
  match s with
  | .sopen => { d with openTodos := l }
  | .sclosed => { d with closedTodos := l }
  | .sonHold => { d with onHoldTodos := l }
  | .sdone => { d with doneTodos := l }
  | .sabandoned => { d with abandonedTodos := l }

/-- All todos of the mirror, concatenated status by status. -/
def Database.allTodos (d : Database) : List Todo :=
  d.openTodos ++ d.closedTodos ++ d.onHoldTodos ++ d.doneTodos ++ d.abandonedTodos

/-- Dereference a todo pointer: the todo of the mirror carrying the
given id. -/
def findTodo (d : Database) (i : Nat) : Option Todo :=
  d.allTodos.find? (fun t => t.id == i)

/-- A Go pointer write `t.field = v` through a `*Todo` with id `i`:
rewrite the todo carrying that id, wherever it sits. -/
def updateTodoIn (d : Database) (i : Nat) (f : Todo → Todo) : Database :=
  let g : List Todo → List Todo := List.map (fun t => if t.id = i then f t else t)
  { d with
    openTodos := g d.openTodos
    closedTodos := g d.closedTodos
    onHoldTodos := g d.onHoldTodos
    doneTodos := g d.doneTodos
    abandonedTodos := g d.abandonedTodos }

/-- Go slice read `l[i]` with an `int` index: `none` is an
index-out-of-range panic. -/
def goGet (l : List Todo) (i : Int) : Option Todo :=
  if i < 0 then none else l.get? i.toNat

/-- db.go `MaxClosedTodos`. -/
def MaxClosedTodos : Nat := 5

/-- The sentinel errors of db.go, plus `storage` for any wrapped
storage failure (failed exec, failed commit, failed LastInsertId,
rollback paths). -/
inductive DbError : Type where
  | maxClosedTodos : DbError
  | invalidTodoMoveNoStatusChange : DbError
  | invalidTodoMove : DbError
  | cantMoveFirstTodoUp : DbError
  | cantMoveLastTodoDown : DbError
  | nilTodo : DbError
  | emptyTitle : DbError
  | storage : DbError
deriving DecidableEq, Repr

/-- Outcome of one store operation, together with the mirror state at
the moment the Go function returns (or panics): `ok` = nil error,
`err` = non-nil error return, `crash` = runtime panic (nil pointer
dereference or slice index out of range). -/
inductive OpResult : Type where
  | ok : Database → OpResult
  | err : DbError → Database → OpResult
  | crash : Database → OpResult
deriving DecidableEq, Repr

/-- db.go `NewTodo` (lines 300-337).  `newId` is the id the storage
engine hands back from `LastInsertId` (autoincrement, hence fresh);
`now` is `time.Now()`.  The Go code appends the `*Todo` to
`open.Todos` and then sets its id through the pointer, so the appended
element carries `newId`. -/
def Database.NewTodo (d : Database) (txOk : Bool) (newId : Nat)
    (title description : String) (now : Nat) : OpResult :=
  if title.length = 0 then .err .emptyTitle d
  else
    let todo : Todo :=
      { id := newId, title := title, description := description, labels := [],
        rank := (d.openTodos.length : Int), status := .sopen,
        createdDatetime := now, updatedDatetime := now }
    if txOk then .ok { d with openTodos := d.openTodos ++ [todo] }
    else .err .storage d

/-- db.go `UpdateTodo` (lines 340-361): nil check, empty-title check,
single UPDATE of title and description, then the two pointer writes
`todo.Title = title; todo.Description = description`.  No other field
is touched. -/
def Database.UpdateTodo (d : Database) (txOk : Bool) (ref : Option Nat)
    (title description : String) : OpResult :=
  match ref with
  | none => .err .nilTodo d
  | some i =>
    if title.length = 0 then .err .emptyTitle d
    else if txOk then
      .ok (updateTodoIn d i
        (fun t => { t with title := title, description := description }))
    else .err .storage d

/-- db.go `validateStatusChange` (lines 393-415), in source order:
nil todo, closed list at capacity, same status (status ids are in
bijection with names, so `newStatus.id == oldStatus.id` is name
equality), the forbidden edge closed→open, the forbidden edges
open→done and on_hold→done. -/
def validateStatusChange (d : Database) (ref : Option Nat)
    (oldS newS : SName) : Option DbError :=
  if ref.isNone then some .nilTodo
  else if newS = .sclosed ∧ MaxClosedTodos ≤ (d.todosOf .sclosed).length then
    some .maxClosedTodos
  else if newS = oldS then some .invalidTodoMoveNoStatusChange
  else if oldS = .sclosed ∧ newS = .sopen then some .invalidTodoMove
  else if (oldS = .sopen ∨ oldS = .sonHold) ∧ newS = .sdone then
    some .invalidTodoMove
  else none

/-- db.go `localStatusChange` (lines 455-481) on the mirror, for a
todo `t` read from the mirror: decrement the rank of every element of
`oldStatus.Todos[t.Rank+1:]`, remove the element at index `t.Rank`
(which is `t` itself whenever ranks match positions), append the moved
todo to `newStatus.Todos`, and set its status and rank to
`len(newStatus.Todos) - 1` through the pointer — i.e. the appended
element carries the destination status and rank = destination length
before the append. -/
def localStatusChange (d : Database) (t : Todo) (oldS newS : SName) : Database :=
  let i : Nat := t.rank.toNat
  let oldList := d.todosOf oldS
  let newOldList :=
    oldList.take i ++ (oldList.drop (i + 1)).map (fun u => { u with rank := u.rank - 1 })
  let d1 := d.setTodos oldS newOldList
  d1.setTodos newS
    (d1.todosOf newS ++ [{ t with status := newS, rank := ((d1.todosOf newS).length : Int) }])

/-- db.go `ChangeStatus` (lines 484-505): validate, persist inside a
transaction (`persistStatusChange`, lines 417-453 — any exec or
commit failure rolls back and returns a wrapped error, covered by
`txOk = false`), then `localStatusChange`.  Both the persist loop and
the local mutation slice `oldStatus.Todos[todo.Rank+1:]`, which panics
when `todo.Rank + 1` exceeds the list length; a negative rank also
panics and never occurs on reachable states. -/
def Database.ChangeStatus (d : Database) (txOk : Bool) (ref : Option Nat)
    (oldS newS : SName) : OpResult :=
  match validateStatusChange d ref oldS newS with
  | some e => .err e d
  | none =>
    match ref with
    | none => .crash d
    | some i =>
      match findTodo d i with
      | none => .crash d
      | some t =>
        if t.rank < 0 ∨ ((d.todosOf oldS).length : Int) < t.rank + 1 then .crash d
        else if txOk then .ok (localStatusChange d t oldS newS)
        else .err .storage d

/-- db.go `MoveUp` (lines 510-551) after the nil check, for a todo `t`
read from the mirror: rank-0 check, read `prevTodo :=
todos[todo.Rank-1]` (panics when out of range — before the
transaction), run the two rank UPDATEs and commit (`txOk`), then swap
`todos[todo.Rank-1]` and `todos[todo.Rank]` in place and apply
`todo.Rank--` and `prevTodo.Rank++` through the pointers.  Whenever
ranks match positions, `todos[todo.Rank]` is `t` itself, so the
element landing at index `rank-1` is the moved todo with its rank
decremented and the element landing at index `rank` is `prevTodo`
with its rank incremented. -/
def moveUpCore (d : Database) (txOk : Bool) (t : Todo) : OpResult :=
  if t.rank = 0 then .err .cantMoveFirstTodoUp d
  else
    match goGet (d.todosOf t.status) (t.rank - 1) with
    | none => .crash d
    | some prevTodo =>
      if txOk then
        match goGet (d.todosOf t.status) t.rank with
        | none => .crash d
        | some cur =>
          .ok (d.setTodos t.status
            (((d.todosOf t.status).set (t.rank.toNat - 1)
                { cur with rank := cur.rank - 1 }).set t.rank.toNat
              { prevTodo with rank := prevTodo.rank + 1 }))
      else .err .storage d

/-- db.go `MoveUp` (lines 510-551): nil check, then `moveUpCore` on
the dereferenced todo. -/
def Database.MoveUp (d : Database) (txOk : Bool) (ref : Option Nat) : OpResult :=
  match ref with
  | none => .err .nilTodo d
  | some i =>
    match findTodo d i with
    | none => .crash d
    | some t => moveUpCore d txOk t

/-- db.go `MoveDown` (lines 556-577): nil check, last-rank check
(`todo.Rank >= len(todo.Status.Todos)-1`, Go int arithmetic), read
`nextTodo := todo.Status.Todos[todo.Rank+1]` (panics when out of
range), and delegate to `MoveUp(nextTodo)` — whose nil check the
non-nil `nextTodo` passes, landing in `moveUpCore`. -/
def Database.MoveDown (d : Database) (txOk : Bool) (ref : Option Nat) : OpResult :=
  match ref with
  | none => .err .nilTodo d
  | some i =>
    match findTodo d i with
    | none => .crash d
    | some t =>
      if ((d.todosOf t.status).length : Int) - 1 ≤ t.rank then
        .err .cantMoveLastTodoDown d
      else
        match goGet (d.todosOf t.status) (t.rank + 1) with
        | none => .crash d
        | some nextTodo => moveUpCore d txOk nextTodo

/-- db.go `AddTodoLabel` (lines 580-592).  There is no nil check: the
first statement reads `todo.id`, so a nil todo is a nil pointer
dereference (crash).  The INSERT into `todo_label` fails on the
UNIQUE(todo_id, label_id) constraint when the association already
exists (and on any storage failure), in which case the mirror is left
untouched; on success the label is appended to `todo.Labels`. -/
def Database.AddTodoLabel (d : Database) (txOk : Bool) (ref : Option Nat)
    (label : Label) : OpResult :=
  match ref with
  | none => .crash d
  | some i =>
    match findTodo d i with
    | none => .crash d
    | some t =>
      if txOk && t.labels.all (fun l => l.id != label.id) then
        .ok (updateTodoIn d i (fun u => { u with labels := u.labels ++ [label] }))
      else .err .storage d

/-- The in-place removal loop of db.go `RemoveTodoLabel` (lines
604-611): drop the first label with matching id, keep the rest in
order. -/
def removeFirstLabel : List Label → Nat → List Label
  | [], _ => []
  | l :: ls, i => if l.id = i then ls else l :: removeFirstLabel ls i

/-- db.go `RemoveTodoLabel` (lines 595-614).  As in `AddTodoLabel`
there is no nil check (`todo.id` is read first: crash on nil).  The
DELETE succeeds whether or not the row exists; afterwards the first
matching label is removed from `todo.Labels`. -/
def Database.RemoveTodoLabel (d : Database) (txOk : Bool) (ref : Option Nat)
    (label : Label) : OpResult :=
  match ref with
  | none => .crash d
  | some i =>
    match findTodo d i with
    | none => .crash d
    | some _t =>
      if txOk then
        .ok (updateTodoIn d i
          (fun u => { u with labels := removeFirstLabel u.labels label.id }))
      else .err .storage d

/-- One call into the store, with its environment-provided data: the
`txOk` oracle, the id handed back by autoincrement for `NewTodo`, the
clock value, and the todo reference (`none` = nil pointer). -/
inductive Op : Type where
  | newTodo (txOk : Bool) (newId : Nat) (title description : String) (now : Nat) : Op
  | updateTodo (txOk : Bool) (ref : Option Nat) (title description : String) : Op
  | addTodoLabel (txOk : Bool) (ref : Option Nat) (label : Label) : Op
  | removeTodoLabel (txOk : Bool) (ref : Option Nat) (label : Label) : Op
  | changeStatus (txOk : Bool) (ref : Option Nat) (oldS newS : SName) : Op
  | moveUp (txOk : Bool) (ref : Option Nat) : Op
  | moveDown (txOk : Bool) (ref : Option Nat) : Op
deriving DecidableEq, Repr

/-- Dispatch one store call. -/
def applyOp (d : Database) : Op → OpResult
  | .newTodo txOk newId title description now => d.NewTodo txOk newId title description now
  | .updateTodo txOk ref title description => d.UpdateTodo txOk ref title description
  | .addTodoLabel txOk ref label => d.AddTodoLabel txOk ref label
  | .removeTodoLabel txOk ref label => d.RemoveTodoLabel txOk ref label
  | .changeStatus txOk ref oldS newS => d.ChangeStatus txOk ref oldS newS
  | .moveUp txOk ref => d.MoveUp txOk ref
  | .moveDown txOk ref => d.MoveDown txOk ref

/-- The contract under which the store is driven (§4.4 of the spec and
the controller call sites): the id returned by autoincrement for a new
todo is fresh, and `ChangeStatus` receives as `oldStatus` the current
status of the todo being moved ("Given a Task, its current Status, and
a target Status").  Every other argument is unconstrained. -/
def OpWF (d : Database) : Op → Prop
  | .newTodo _ newId _ _ _ => ∀ t ∈ d.allTodos, t.id ≠ newId
  | .changeStatus _ ref oldS _ =>
      ∀ i, ref = some i → ∀ t, findTodo d i = some t → oldS = t.status
  | _ => True

/-- One successful, well-formed store call turning mirror `d` into
mirror `d'` (calls that return an error or panic do not change the
mirror, so reachability through `ok` results captures every mirror
state the program can be in). -/
def Step (d d' : Database) : Prop :=
  ∃ op : Op, OpWF d op ∧ applyOp d op = .ok d'

/-- Mirror states reachable from `d0` by a sequence of store calls. -/
def Reachable (d0 d : Database) : Prop :=
  Relation.ReflTransGen Step d0 d

/-- The todos of one status list, in order, carry ranks `k, k+1, ...`
and the status back-pointer `s`. -/
def ranked (s : SName) : List Todo → Int → Prop
  | [], _ => True
  | t :: ts, k => t.rank = k ∧ t.status = s ∧ ranked s ts (k + 1)

instance instRankedDecidable (s : SName) :
    (l : List Todo) → (k : Int) → Decidable (ranked s l k)
  | [], _ => .isTrue trivial
  | t :: ts, k =>
    have : Decidable (ranked s ts (k + 1)) := instRankedDecidable s ts (k + 1)
    inferInstanceAs (Decidable (t.rank = k ∧ t.status = s ∧ ranked s ts (k + 1)))

/-- Rank/position invariant of §3 and §8 of the spec: in every status
list the task at position `i` carries rank `i` (so the rank set is
exactly `{0, ..., n-1}`) and points back at its status. -/
def RankInv (d : Database) : Prop :=
  ∀ s : SName, ranked s (d.todosOf s) 0

instance (d : Database) : Decidable (RankInv d) :=
  inferInstanceAs (Decidable (∀ s : SName, ranked s (d.todosOf s) 0))

/-- The ids of the mirror's todos are pairwise distinct (autoincrement
primary keys), which is what lets a `*Todo` be identified by its id. -/
def IdsNodup (d : Database) : Prop :=
  (d.allTodos.map Todo.id).Nodup

instance (d : Database) : Decidable (IdsNodup d) :=
  inferInstanceAs (Decidable (d.allTodos.map Todo.id).Nodup)

/-- Well-formedness of a loaded mirror: ranks are dense, zero-based and
positional, status back-pointers are right, ids are distinct.  This
holds for a mirror freshly loaded from a durable state the store
itself wrote, and is preserved by every operation. -/
def StoreInv (d : Database) : Prop :=
  RankInv d ∧ IdsNodup d

instance (d : Database) : Decidable (StoreInv d) :=
  inferInstanceAs (Decidable (RankInv d ∧ IdsNodup d))

lemma todosOf_setTodos (d : Database) (s s' : SName) (l : List Todo) :
    (d.setTodos s l).todosOf s' = if s' = s then l else d.todosOf s' := by
  cases s <;> cases s' <;> simp [Database.setTodos, Database.todosOf]

lemma labels_setTodos (d : Database) (s : SName) (l : List Todo) :
    (d.setTodos s l).labels = d.labels := by
  cases s <;> simp [Database.setTodos]

lemma ranked_nil (s : SName) (k : Int) : ranked s [] k := trivial

lemma ranked_cons {s : SName} {t : Todo} {ts : List Todo} {k : Int} :
    ranked s (t :: ts) k ↔ t.rank = k ∧ t.status = s ∧ ranked s ts (k + 1) :=
  Iff.rfl

lemma ranked_append {s : SName} {k : Int} :
    ∀ {a b : List Todo},
      ranked s (a ++ b) k ↔ ranked s a k ∧ ranked s b (k + a.length) := by
  intro a
  induction a generalizing k with
  | nil => intro b; simp [ranked_nil, ranked]
  | cons t ts ih =>
    intro b
    simp only [List.cons_append, ranked_cons, ih, List.length_cons]
    have hc : (k + ((ts.length : Nat) + 1 : Nat) : Int) = k + 1 + ts.length := by
      push_cast
      ring
    rw [hc]
    tauto

lemma ranked_get? {s : SName} :
    ∀ {l : List Todo} {k : Int} {i : Nat} {t : Todo},
      ranked s l k → l.get? i = some t → t.rank = k + i ∧ t.status = s := by
  intro l
  induction l with
  | nil => intro k i t _ h; simp [List.get?] at h
  | cons x xs ih =>
    intro k i t hr hg
    rcases hr with ⟨hx, hs, hxs⟩
    cases i with
    | zero =>
      simp only [List.get?] at hg
      cases hg
      simpa [hx] using hs
    | succ j =>
      simp only [List.get?] at hg
      have := ih hxs hg
      refine ⟨?_, this.2⟩
      rw [this.1]
      push_cast
      ring

lemma ranked_map_preserve {s : SName} {f : Todo → Todo}
    (hf : ∀ u, (f u).rank = u.rank ∧ (f u).status = u.status) :
    ∀ {l : List Todo} {k : Int}, ranked s l k → ranked s (l.map f) k := by
  intro l
  induction l with
  | nil => intro k _; exact ranked_nil s k
  | cons x xs ih =>
    intro k hr
    rcases hr with ⟨hx, hs, hxs⟩
    exact ⟨by rw [(hf x).1, hx], by rw [(hf x).2, hs], ih hxs⟩

lemma ranked_map_dec {s : SName} :
    ∀ {l : List Todo} {k : Int},
      ranked s l k →
      ranked s (l.map (fun u => { u with rank := u.rank - 1 })) (k - 1) := by
  intro l
  induction l with
  | nil => intro k _; exact ranked_nil s (k - 1)
  | cons x xs ih =>
    intro k hr
    rcases hr with ⟨hx, hs, hxs⟩
    refine ⟨by simp [hx], by simpa using hs, ?_⟩
    have := ih hxs
    convert this using 1
    ring

lemma ranked_take {s : SName} :
    ∀ {l : List Todo} {k : Int} (n : Nat), ranked s l k → ranked s (l.take n) k := by
  intro l
  induction l with
  | nil => intro k n _; simp [ranked_nil]
  | cons x xs ih =>
    intro k n hr
    rcases hr with ⟨hx, hs, hxs⟩
    cases n with
    | zero => exact ranked_nil s k
    | succ m => exact ⟨hx, hs, ih m hxs⟩

lemma ranked_drop {s : SName} :
    ∀ {l : List Todo} {k : Int} (n : Nat), ranked s l k → ranked s (l.drop n) (k + n) := by
  intro l
  induction l with
  | nil => intro k n _; simp [ranked_nil]
  | cons x xs ih =>
    intro k n hr
    rcases hr with ⟨hx, hs, hxs⟩
    cases n with
    | zero => simpa using ⟨hx, hs, hxs⟩
    | succ m =>
      have h2 := ih m hxs
      simp only [List.drop_succ_cons]
      have hc : (k + ((m : Nat) + 1 : Nat) : Int) = k + 1 + m := by
        push_cast
        ring
      rw [hc]
      exact h2

lemma ranked_mem {s : SName} {l : List Todo} {k : Int} {t : Todo}
    (hr : ranked s l k) (hm : t ∈ l) :
    t.status = s ∧ k ≤ t.rank ∧ l.get? (t.rank - k).toNat = some t := by
  obtain ⟨⟨i, hi⟩, hg⟩ := List.mem_iff_get.mp hm
  have hg? : l.get? i = some t := by rw [List.get?_eq_get hi, hg]
  obtain ⟨hrk, hst⟩ := ranked_get? hr hg?
  refine ⟨hst, by omega, ?_⟩
  have : (t.rank - k).toNat = i := by omega
  rw [this]
  exact hg?

lemma get?_decomp {α : Type} {l : List α} {i : Nat} {x : α}
    (h : l.get? i = some x) : l = l.take i ++ x :: l.drop (i + 1) := by
  have h' : l[i]? = some x := by simpa [← List.get?_eq_getElem?] using h
  obtain ⟨hlen, hget⟩ := List.getElem?_eq_some.mp h'
  conv_lhs => rw [← List.take_append_drop i l]
  rw [List.drop_eq_getElem_cons hlen, hget]

lemma set_set_swap {α : Type} :
    ∀ (l : List α) (j : Nat) (a b : α), j + 1 < l.length →
      (l.set j a).set (j + 1) b = l.take j ++ a :: b :: l.drop (j + 2) := by
  intro l
  induction l with
  | nil => intro j a b h; simp at h
  | cons x xs ih =>
    intro j a b h
    cases j with
    | zero =>
      cases xs with
      | nil => simp at h
      | cons y ys => simp [List.set]
    | succ m =>
      simp only [List.set, List.length_cons] at h ⊢
      rw [ih m a b (by omega)]
      simp

lemma count_ids_append (A B : List Todo) (a : Nat) :
    (((A ++ B).map Todo.id).count a) =
      ((A.map Todo.id).count a) + ((B.map Todo.id).count a) := by
  simp [List.count_append]

lemma count_allTodos (d : Database) (a : Nat) :
    ((d.allTodos.map Todo.id).count a) =
      (((d.todosOf .sopen).map Todo.id).count a)
      + (((d.todosOf .sclosed).map Todo.id).count a)
      + (((d.todosOf .sonHold).map Todo.id).count a)
      + (((d.todosOf .sdone).map Todo.id).count a)
      + (((d.todosOf .sabandoned).map Todo.id).count a) := by
  simp only [Database.allTodos, Database.todosOf, List.map_append, List.count_append]

lemma idsNodup_of_count {d d' : Database}
    (h : ∀ a, ((d'.allTodos.map Todo.id).count a) = ((d.allTodos.map Todo.id).count a))
    (hn : IdsNodup d) : IdsNodup d' :=
  ((List.perm_iff_count.2 h).symm).nodup hn

lemma mem_allTodos {d : Database} {t : Todo} (h : t ∈ d.allTodos) :
    ∃ s : SName, t ∈ d.todosOf s := by
  simp only [Database.allTodos, List.mem_append] at h
  rcases h with ((((h | h) | h) | h) | h)
  · exact ⟨.sopen, h⟩
  · exact ⟨.sclosed, h⟩
  · exact ⟨.sonHold, h⟩
  · exact ⟨.sdone, h⟩
  · exact ⟨.sabandoned, h⟩

/-- Dereferencing a valid pointer on a well-formed mirror: the todo
carries the looked-up id, a nonnegative rank, and sits in its own
status's list at position `rank`. -/
lemma findTodo_deref {d : Database} {i : Nat} {t : Todo}
    (hInv : StoreInv d) (h : findTodo d i = some t) :
    t.id = i ∧ 0 ≤ t.rank ∧ (d.todosOf t.status).get? t.rank.toNat = some t := by
  have hmem : t ∈ d.allTodos := List.mem_of_find?_eq_some h
  have hid : t.id = i := by simpa using List.find?_some h
  obtain ⟨s, hs⟩ := mem_allTodos hmem
  obtain ⟨hst, hge, hget⟩ := ranked_mem (hInv.1 s) hs
  subst hst
  refine ⟨hid, by simpa using hge, ?_⟩
  simpa using hget

lemma validate_none {d : Database} {ref : Option Nat} {oldS newS : SName}
    (h : validateStatusChange d ref oldS newS = none) :
    ref ≠ none ∧ newS ≠ oldS ∧
      ¬(newS = .sclosed ∧ MaxClosedTodos ≤ (d.todosOf .sclosed).length) := by
  unfold validateStatusChange at h
  split_ifs at h with h1 h2 h3 h4 h5
  exact ⟨fun hn => h1 (by simp [hn]), h3, h2⟩

/-- The mirror after `localStatusChange` for a move from `oldS` to a
different status `newS`: the destination holds the appended moved todo
(status and rank rewritten through the pointer), the source holds its
prefix up to the moved todo's rank followed by the decremented
remainder, every other status is untouched. -/
lemma localStatusChange_todosOf (d : Database) (t : Todo) (oldS newS : SName)
    (hne : newS ≠ oldS) (s : SName) :
    (localStatusChange d t oldS newS).todosOf s =
      if s = newS then
        d.todosOf newS ++
          [{ t with status := newS, rank := ((d.todosOf newS).length : Int) }]
      else if s = oldS then
        (d.todosOf oldS).take t.rank.toNat ++
          ((d.todosOf oldS).drop (t.rank.toNat + 1)).map
            (fun u => { u with rank := u.rank - 1 })
      else d.todosOf s := by
  unfold localStatusChange
  simp only [todosOf_setTodos, if_neg hne]

lemma localStatusChange_labels (d : Database) (t : Todo) (oldS newS : SName) :
    (localStatusChange d t oldS newS).labels = d.labels := by
  unfold localStatusChange
  simp [labels_setTodos]

lemma ranked_singleton {s : SName} {t : Todo} {k : Int} :
    ranked s [t] k ↔ t.rank = k ∧ t.status = s := by
  simp [ranked]

lemma mem_ids {d : Database} {x : Nat} :
    x ∈ d.allTodos.map Todo.id ↔ ∃ t ∈ d.allTodos, t.id = x := by
  simp [List.mem_map]

lemma inv_append_open {d : Database} {todo : Todo}
    (hInv : StoreInv d) (hrank : todo.rank = (d.openTodos.length : Int))
    (hstat : todo.status = .sopen)
    (hfresh : ∀ t ∈ d.allTodos, t.id ≠ todo.id) :
    StoreInv { d with openTodos := d.openTodos ++ [todo] } := by
  have hd : ({ d with openTodos := d.openTodos ++ [todo] } : Database) =
      d.setTodos .sopen (d.openTodos ++ [todo]) := rfl
  rw [hd]
  constructor
  · intro s
    rw [todosOf_setTodos]
    by_cases hs : s = .sopen
    · subst hs
      simp only [if_pos rfl]
      refine ranked_append.2 ⟨hInv.1 .sopen, ?_⟩
      rw [ranked_singleton]
      exact ⟨by simpa [Database.todosOf] using hrank, hstat⟩
    · rw [if_neg hs]
      exact hInv.1 s
  · have hperm : (d.setTodos .sopen (d.openTodos ++ [todo])).allTodos.Perm
        (todo :: d.allTodos) := by
      apply List.perm_iff_count.2
      intro a
      simp only [Database.setTodos, Database.allTodos, List.count_append,
        List.count_cons, List.count_nil]
      split_ifs <;> omega
    have hmap := hperm.map Todo.id
    apply hmap.symm.nodup
    simp only [List.map_cons, List.nodup_cons]
    refine ⟨?_, hInv.2⟩
    intro hmem
    obtain ⟨t, ht, hid⟩ := mem_ids.mp hmem
    exact hfresh t ht hid

lemma inv_NewTodo {d d' : Database} {txOk : Bool} {newId : Nat}
    {title description : String} {now : Nat}
    (hInv : StoreInv d) (hfresh : ∀ t ∈ d.allTodos, t.id ≠ newId)
    (hok : d.NewTodo txOk newId title description now = .ok d') : StoreInv d' := by
  unfold Database.NewTodo at hok
  split_ifs at hok with h1 h2
  all_goals cases hok
  exact inv_append_open hInv rfl rfl hfresh

lemma todosOf_updateTodoIn (d : Database) (i : Nat) (f : Todo → Todo) (s : SName) :
    (updateTodoIn d i f).todosOf s =
      (d.todosOf s).map (fun t => if t.id = i then f t else t) := by
  cases s <;> rfl

lemma allTodos_updateTodoIn (d : Database) (i : Nat) (f : Todo → Todo) :
    (updateTodoIn d i f).allTodos =
      d.allTodos.map (fun t => if t.id = i then f t else t) := by
  simp [updateTodoIn, Database.allTodos]

lemma inv_updateTodoIn {d : Database} {i : Nat} {f : Todo → Todo}
    (hf : ∀ u, (f u).rank = u.rank ∧ (f u).status = u.status ∧ (f u).id = u.id)
    (hInv : StoreInv d) : StoreInv (updateTodoIn d i f) := by
  constructor
  · intro s
    rw [todosOf_updateTodoIn]
    apply ranked_map_preserve ?_ (hInv.1 s)
    intro u
    by_cases hu : u.id = i <;> simp [hu, hf u |>.1, hf u |>.2.1]
  · have : (updateTodoIn d i f).allTodos.map Todo.id = d.allTodos.map Todo.id := by
      rw [allTodos_updateTodoIn, List.map_map]
      apply List.map_congr_left
      intro t _
      by_cases ht : t.id = i <;> simp [ht, (hf t).2.2]
    unfold IdsNodup
    rw [this]
    exact hInv.2

lemma goGet_some {l : List Todo} {i : Int} {t : Todo} (h : goGet l i = some t) :
    0 ≤ i ∧ l.get? i.toNat = some t := by
  unfold goGet at h
  split_ifs at h with h1
  exact ⟨by omega, h⟩

lemma get?_some_lt {α : Type} {l : List α} {j : Nat} {x : α}
    (h : l.get? j = some x) : j < l.length := by
  have h' : l[j]? = some x := by simpa [← List.get?_eq_getElem?] using h
  exact (List.getElem?_eq_some.mp h').1

lemma ids_map_dec (X : List Todo) :
    (X.map (fun u => ({ u with rank := u.rank - 1 } : Todo))).map Todo.id =
      X.map Todo.id := by
  rw [List.map_map]
  rfl

lemma idsNodup_setTodos {d : Database} {s : SName} {l : List Todo}
    (h : ∀ a, ((l.map Todo.id).count a) = (((d.todosOf s).map Todo.id).count a))
    (hn : IdsNodup d) : IdsNodup (d.setTodos s l) := by
  apply idsNodup_of_count ?_ hn
  intro a
  rw [count_allTodos, count_allTodos]
  have hh := h a
  cases s <;> simp only [todosOf_setTodos] <;> simp_all

/-- Anatomy of a successful `moveUpCore` call: the rank-0 check
passed, both slice reads succeeded, the transaction committed, and
the mirror got the in-place swap. -/
lemma moveUpCore_ok_shape {d d' : Database} {txOk : Bool} {t : Todo}
    (hok : moveUpCore d txOk t = .ok d') :
    txOk = true ∧ t.rank ≠ 0 ∧
    ∃ prevTodo cur,
      goGet (d.todosOf t.status) (t.rank - 1) = some prevTodo ∧
      goGet (d.todosOf t.status) t.rank = some cur ∧
      d' = d.setTodos t.status
        (((d.todosOf t.status).set (t.rank.toNat - 1)
            { cur with rank := cur.rank - 1 }).set t.rank.toNat
          { prevTodo with rank := prevTodo.rank + 1 }) := by
  unfold moveUpCore at hok
  by_cases h1 : t.rank = 0
  · rw [if_pos h1] at hok
    cases hok
  · rw [if_neg h1] at hok
    cases hprev : goGet (d.todosOf t.status) (t.rank - 1) with
    | none => rw [hprev] at hok; cases hok
    | some prevTodo =>
      rw [hprev] at hok
      dsimp only at hok
      by_cases h2 : txOk
      · rw [if_pos h2] at hok
        cases hcur : goGet (d.todosOf t.status) t.rank with
        | none => rw [hcur] at hok; cases hok
        | some cur =>
          rw [hcur] at hok
          dsimp only at hok
          cases hok
          exact ⟨h2, h1, prevTodo, cur, rfl, rfl, rfl⟩
      · rw [if_neg h2] at hok
        cases hok

lemma ranked_congr {s : SName} {l : List Todo} {k k' : Int}
    (h : k = k') (hr : ranked s l k) : ranked s l k' := h ▸ hr

lemma inv_moveUpCore {d d' : Database} {txOk : Bool} {t : Todo}
    (hInv : StoreInv d)
    (hget : (d.todosOf t.status).get? t.rank.toNat = some t)
    (hok : moveUpCore d txOk t = .ok d') : StoreInv d' := by
  obtain ⟨htx, h1, prevTodo, cur, hprev, hcur, hd'⟩ := moveUpCore_ok_shape hok
  obtain ⟨hr0, hcur'⟩ := goGet_some hcur
  obtain ⟨hr1, hprev'⟩ := goGet_some hprev
  have hcurt : cur = t := by
    rw [hget] at hcur'
    exact (Option.some.inj hcur').symm
  subst hcurt
  set l := d.todosOf cur.status with hl
  set j := cur.rank.toNat with hj
  have hjr : cur.rank = (j : Int) := by omega
  have hj1 : 1 ≤ j := by omega
  have hjlen : j < l.length := get?_some_lt hget
  have hjm : (cur.rank - 1).toNat = j - 1 := by omega
  rw [hjm] at hprev'
  have hrk := hInv.1 cur.status
  rw [← hl] at hrk
  obtain ⟨hprevrank, hprevstat⟩ := ranked_get? hrk hprev'
  have hsw : (l.set (j - 1) { cur with rank := cur.rank - 1 }).set j
      { prevTodo with rank := prevTodo.rank + 1 } =
      l.take (j - 1) ++ { cur with rank := cur.rank - 1 } ::
        { prevTodo with rank := prevTodo.rank + 1 } :: l.drop (j + 1) := by
    have hjj : j = (j - 1) + 1 := by omega
    nth_rewrite 2 [hjj]
    rw [set_set_swap l (j - 1) _ _ (by omega)]
    have h2 : j - 1 + 2 = j + 1 := by omega
    rw [h2]
  rw [hd', hsw]
  have hlen_take : (l.take (j - 1)).length = j - 1 := by
    rw [List.length_take]
    omega
  constructor
  · intro s
    rw [todosOf_setTodos]
    by_cases hs : s = cur.status
    · subst hs
      rw [if_pos rfl]
      refine ranked_append.2 ⟨ranked_take (j - 1) hrk, ?_⟩
      rw [hlen_take]
      refine ⟨?_, rfl, ?_, hprevstat, ?_⟩
      · show cur.rank - 1 = _
        omega
      · show prevTodo.rank + 1 = _
        omega
      · exact ranked_congr (by omega) (ranked_drop (j + 1) hrk)
    · rw [if_neg hs]
      exact hInv.1 s
  · apply idsNodup_setTodos ?_ hInv.2
    intro a
    have hdropj : l.drop j = cur :: l.drop (j + 1) := by
      have h' : l[j]? = some cur := by simpa [← List.get?_eq_getElem?] using hget
      obtain ⟨hlen, hgete⟩ := List.getElem?_eq_some.mp h'
      rw [List.drop_eq_getElem_cons hlen, hgete]
    have hldec : l = l.take (j - 1) ++ prevTodo :: cur :: l.drop (j + 1) := by
      have hjj : j - 1 + 1 = j := by omega
      conv_lhs => rw [get?_decomp hprev']
      rw [hjj, hdropj]
    rw [← hl]
    conv_rhs => rw [hldec]
    simp only [List.map_append, List.map_cons, List.count_append, List.count_cons]
    simp
    omega

lemma inv_MoveUp {d d' : Database} {txOk : Bool} {ref : Option Nat}
    (hInv : StoreInv d) (hok : d.MoveUp txOk ref = .ok d') : StoreInv d' := by
  unfold Database.MoveUp at hok
  cases ref with
  | none => cases hok
  | some i =>
    dsimp only at hok
    cases hf : findTodo d i with
    | none => rw [hf] at hok; cases hok
    | some t =>
      rw [hf] at hok
      dsimp only at hok
      obtain ⟨_, h0, hget⟩ := findTodo_deref hInv hf
      exact inv_moveUpCore hInv hget hok

lemma inv_MoveDown {d d' : Database} {txOk : Bool} {ref : Option Nat}
    (hInv : StoreInv d) (hok : d.MoveDown txOk ref = .ok d') : StoreInv d' := by
  unfold Database.MoveDown at hok
  cases ref with
  | none => cases hok
  | some i =>
    dsimp only at hok
    cases hf : findTodo d i with
    | none => rw [hf] at hok; cases hok
    | some t =>
      rw [hf] at hok
      dsimp only at hok
      by_cases hlast : ((d.todosOf t.status).length : Int) - 1 ≤ t.rank
      · rw [if_pos hlast] at hok
        cases hok
      · rw [if_neg hlast] at hok
        cases hnx : goGet (d.todosOf t.status) (t.rank + 1) with
        | none => rw [hnx] at hok; cases hok
        | some nextTodo =>
          rw [hnx] at hok
          dsimp only at hok
          obtain ⟨hge, hnx'⟩ := goGet_some hnx
          obtain ⟨hnrank, hnstat⟩ := ranked_get? (hInv.1 t.status) hnx'
          have hnn : nextTodo.rank.toNat = (t.rank + 1).toNat := by omega
          have hget' : (d.todosOf nextTodo.status).get? nextTodo.rank.toNat =
              some nextTodo := by
            rw [hnstat, hnn]
            exact hnx'
          exact inv_moveUpCore hInv hget' hok

/-- Anatomy of a successful `ChangeStatus` call: validation passed,
the reference dereferenced, the slice bound held, the transaction
committed, and the mirror got `localStatusChange`. -/
lemma ChangeStatus_ok_shape {d d' : Database} {txOk : Bool} {ref : Option Nat}
    {oldS newS : SName}
    (hok : d.ChangeStatus txOk ref oldS newS = .ok d') :
    validateStatusChange d ref oldS newS = none ∧ txOk = true ∧
    ∃ i t, ref = some i ∧ findTodo d i = some t ∧
      ¬(t.rank < 0 ∨ ((d.todosOf oldS).length : Int) < t.rank + 1) ∧
      d' = localStatusChange d t oldS newS := by
  unfold Database.ChangeStatus at hok
  cases hv : validateStatusChange d ref oldS newS with
  | some e => rw [hv] at hok; cases hok
  | none =>
    rw [hv] at hok
    dsimp only at hok
    cases ref with
    | none => cases hok
    | some i =>
      dsimp only at hok
      cases hf : findTodo d i with
      | none => rw [hf] at hok; cases hok
      | some t =>
        rw [hf] at hok
        dsimp only at hok
        by_cases hb : t.rank < 0 ∨ ((d.todosOf oldS).length : Int) < t.rank + 1
        · rw [if_pos hb] at hok
          cases hok
        · rw [if_neg hb] at hok
          by_cases htx : txOk
          · rw [if_pos htx] at hok
            cases hok
            exact ⟨rfl, htx, i, t, rfl, hf, hb, rfl⟩
          · rw [if_neg htx] at hok
            cases hok

lemma count_ids_setTodos_shift (d : Database) (s : SName) (l : List Todo) (a : Nat) :
    (((d.setTodos s l).allTodos.map Todo.id).count a)
        + (((d.todosOf s).map Todo.id).count a)
      = ((d.allTodos.map Todo.id).count a) + ((l.map Todo.id).count a) := by
  cases s <;>
    simp [Database.setTodos, Database.allTodos, Database.todosOf,
      List.count_append] <;>
    omega

lemma inv_localStatusChange {d : Database} {t : Todo} {oldS newS : SName}
    (hInv : StoreInv d) (hne : newS ≠ oldS)
    (hget : (d.todosOf oldS).get? t.rank.toNat = some t) :
    StoreInv (localStatusChange d t oldS newS) := by
  have htd := localStatusChange_todosOf d t oldS newS hne
  set j := t.rank.toNat with hj
  set l := d.todosOf oldS with hl
  have hjlen : j < l.length := get?_some_lt hget
  have hrk : ranked oldS l 0 := hInv.1 oldS
  constructor
  · intro s
    rw [htd s]
    by_cases hs1 : s = newS
    · subst hs1
      rw [if_pos rfl]
      refine ranked_append.2 ⟨hInv.1 s, ?_⟩
      rw [ranked_singleton]
      constructor
      · simp only []
        omega
      · rfl
    · rw [if_neg hs1]
      by_cases hs2 : s = oldS
      · subst hs2
        rw [if_pos rfl]
        refine ranked_append.2 ⟨ranked_take j hrk, ?_⟩
        have hlt : (l.take j).length = j := by
          rw [List.length_take]
          omega
        rw [hlt]
        exact ranked_congr (by omega) (ranked_map_dec (ranked_drop (j + 1) hrk))
      · rw [if_neg hs2]
        exact hInv.1 s
  · apply idsNodup_of_count ?_ hInv.2
    intro a
    set newOld := l.take j ++ (l.drop (j + 1)).map
        (fun u : Todo => { u with rank := u.rank - 1 }) with hno
    set d1 := d.setTodos oldS newOld with hd1
    have hnew1 : d1.todosOf newS = d.todosOf newS := by
      rw [hd1, todosOf_setTodos, if_neg hne]
    have hds : localStatusChange d t oldS newS = d1.setTodos newS
        (d1.todosOf newS ++ [{ t with status := newS, rank := ((d1.todosOf newS).length : Int) }]) := rfl
    rw [hnew1] at hds
    have h1 := count_ids_setTodos_shift d oldS newOld a
    rw [← hl, ← hd1] at h1
    have h2 := count_ids_setTodos_shift d1 newS
      (d.todosOf newS ++ [{ t with status := newS, rank := ((d.todosOf newS).length : Int) }]) a
    rw [hnew1] at h2
    have h3 : ((l.map Todo.id).count a) =
        ((newOld.map Todo.id).count a) + (if t.id = a then 1 else 0) := by
      conv_lhs => rw [get?_decomp hget]
      rw [hno]
      simp only [List.map_append, List.count_append, List.map_cons,
        List.count_cons, ids_map_dec, beq_iff_eq]
      omega
    have h4 : (((d.todosOf newS ++ [{ t with status := newS, rank := ((d.todosOf newS).length : Int) }]).map Todo.id).count a) =
        (((d.todosOf newS).map Todo.id).count a) + (if t.id = a then 1 else 0) := by
      simp only [List.map_append, List.count_append, List.map_cons, List.map_nil,
        List.count_cons, List.count_nil, beq_iff_eq]
      omega
    rw [hds]
    omega

lemma inv_ChangeStatus {d d' : Database} {txOk : Bool} {ref : Option Nat}
    {oldS newS : SName} (hInv : StoreInv d)
    (hWF : ∀ i, ref = some i → ∀ t, findTodo d i = some t → oldS = t.status)
    (hok : d.ChangeStatus txOk ref oldS newS = .ok d') : StoreInv d' := by
  obtain ⟨hv, htx, i, t, href, hf, hb, hd'⟩ := ChangeStatus_ok_shape hok
  obtain ⟨-, hne, -⟩ := validate_none hv
  have hst := hWF i href t hf
  subst hst
  obtain ⟨hid, h0, hget⟩ := findTodo_deref hInv hf
  subst hd'
  exact inv_localStatusChange hInv hne hget

lemma inv_UpdateTodo {d d' : Database} {txOk : Bool} {ref : Option Nat}
    {title description : String} (hInv : StoreInv d)
    (hok : d.UpdateTodo txOk ref title description = .ok d') : StoreInv d' := by
  unfold Database.UpdateTodo at hok
  cases ref with
  | none => cases hok
  | some i =>
    dsimp only at hok
    split_ifs at hok with h1 h2
    all_goals cases hok
    apply inv_updateTodoIn ?_ hInv
    intro u
    exact ⟨rfl, rfl, rfl⟩

lemma inv_AddTodoLabel {d d' : Database} {txOk : Bool} {ref : Option Nat}
    {label : Label} (hInv : StoreInv d)
    (hok : d.AddTodoLabel txOk ref label = .ok d') : StoreInv d' := by
  unfold Database.AddTodoLabel at hok
  cases ref with
  | none => cases hok
  | some i =>
    dsimp only at hok
    cases hf : findTodo d i with
    | none => rw [hf] at hok; cases hok
    | some t =>
      rw [hf] at hok
      dsimp only at hok
      split_ifs at hok with h1
      all_goals cases hok
      apply inv_updateTodoIn ?_ hInv
      intro u
      exact ⟨rfl, rfl, rfl⟩

lemma inv_RemoveTodoLabel {d d' : Database} {txOk : Bool} {ref : Option Nat}
    {label : Label} (hInv : StoreInv d)
    (hok : d.RemoveTodoLabel txOk ref label = .ok d') : StoreInv d' := by
  unfold Database.RemoveTodoLabel at hok
  cases ref with
  | none => cases hok
  | some i =>
    dsimp only at hok
    cases hf : findTodo d i with
    | none => rw [hf] at hok; cases hok
    | some t =>
      rw [hf] at hok
      dsimp only at hok
      split_ifs at hok with h1
      all_goals cases hok
      apply inv_updateTodoIn ?_ hInv
      intro u
      exact ⟨rfl, rfl, rfl⟩

/-- Every well-formed successful store call preserves the mirror
invariant. -/
lemma step_preserves {d d' : Database} (hInv : StoreInv d) (h : Step d d') :
    StoreInv d' := by
  obtain ⟨op, hWF, hok⟩ := h
  cases op with
  | newTodo txOk newId title description now =>
    exact inv_NewTodo hInv hWF hok
  | updateTodo txOk ref title description => exact inv_UpdateTodo hInv hok
  | addTodoLabel txOk ref label => exact inv_AddTodoLabel hInv hok
  | removeTodoLabel txOk ref label => exact inv_RemoveTodoLabel hInv hok
  | changeStatus txOk ref oldS newS => exact inv_ChangeStatus hInv hWF hok
  | moveUp txOk ref => exact inv_MoveUp hInv hok
  | moveDown txOk ref => exact inv_MoveDown hInv hok

/-- The invariant holds in every state reachable from a well-formed
mirror. -/
lemma reachable_preserves {d0 d : Database} (hInv : StoreInv d0)
    (h : Reachable d0 d) : StoreInv d := by
  induction h with
  | refl => exact hInv
  | tail hs hstep ih => exact step_preserves ih hstep

lemma err_frame_NewTodo {d d' : Database} {e : DbError} {txOk : Bool}
    {newId : Nat} {title description : String} {now : Nat}
    (h : d.NewTodo txOk newId title description now = .err e d') : d' = d := by
  unfold Database.NewTodo at h
  split_ifs at h <;> cases h <;> rfl

lemma err_frame_UpdateTodo {d d' : Database} {e : DbError} {txOk : Bool}
    {ref : Option Nat} {title description : String}
    (h : d.UpdateTodo txOk ref title description = .err e d') : d' = d := by
  unfold Database.UpdateTodo at h
  cases ref with
  | none => cases h; rfl
  | some i =>
    dsimp only at h
    split_ifs at h <;> cases h <;> rfl

lemma err_frame_ChangeStatus {d d' : Database} {e : DbError} {txOk : Bool}
    {ref : Option Nat} {oldS newS : SName}
    (h : d.ChangeStatus txOk ref oldS newS = .err e d') : d' = d := by
  unfold Database.ChangeStatus at h
  cases hv : validateStatusChange d ref oldS newS with
  | some e2 => rw [hv] at h; cases h; rfl
  | none =>
    rw [hv] at h
    dsimp only at h
    cases ref with
    | none => cases h
    | some i =>
      dsimp only at h
      cases hf : findTodo d i with
      | none => rw [hf] at h; cases h
      | some t =>
        rw [hf] at h
        dsimp only at h
        split_ifs at h <;> cases h <;> rfl

lemma err_frame_moveUpCore {d d' : Database} {e : DbError} {txOk : Bool}
    {t : Todo} (h : moveUpCore d txOk t = .err e d') : d' = d := by
  unfold moveUpCore at h
  by_cases h1 : t.rank = 0
  · rw [if_pos h1] at h
    cases h
    rfl
  · rw [if_neg h1] at h
    cases hprev : goGet (d.todosOf t.status) (t.rank - 1) with
    | none => rw [hprev] at h; cases h
    | some prevTodo =>
      rw [hprev] at h
      dsimp only at h
      by_cases h2 : txOk
      · rw [if_pos h2] at h
        cases hcur : goGet (d.todosOf t.status) t.rank with
        | none => rw [hcur] at h; cases h
        | some cur =>
          rw [hcur] at h
          dsimp only at h
          cases h
      · rw [if_neg h2] at h
        cases h
        rfl

lemma err_frame_MoveUp {d d' : Database} {e : DbError} {txOk : Bool}
    {ref : Option Nat} (h : d.MoveUp txOk ref = .err e d') : d' = d := by
  unfold Database.MoveUp at h
  cases ref with
  | none => cases h; rfl
  | some i =>
    dsimp only at h
    cases hf : findTodo d i with
    | none => rw [hf] at h; cases h
    | some t =>
      rw [hf] at h
      dsimp only at h
      exact err_frame_moveUpCore h

lemma err_frame_MoveDown {d d' : Database} {e : DbError} {txOk : Bool}
    {ref : Option Nat} (h : d.MoveDown txOk ref = .err e d') : d' = d := by
  unfold Database.MoveDown at h
  cases ref with
  | none => cases h; rfl
  | some i =>
    dsimp only at h
    cases hf : findTodo d i with
    | none => rw [hf] at h; cases h
    | some t =>
      rw [hf] at h
      dsimp only at h
      split_ifs at h with h1
      · cases h
        rfl
      · cases hnx : goGet (d.todosOf t.status) (t.rank + 1) with
        | none => rw [hnx] at h; cases h
        | some nextTodo =>
          rw [hnx] at h
          dsimp only at h
          exact err_frame_moveUpCore h

lemma err_frame_AddTodoLabel {d d' : Database} {e : DbError} {txOk : Bool}
    {ref : Option Nat} {label : Label}
    (h : d.AddTodoLabel txOk ref label = .err e d') : d' = d := by
  unfold Database.AddTodoLabel at h
  cases ref with
  | none => cases h
  | some i =>
    dsimp only at h
    cases hf : findTodo d i with
    | none => rw [hf] at h; cases h
    | some t =>
      rw [hf] at h
      dsimp only at h
      split_ifs at h <;> cases h <;> rfl

lemma err_frame_RemoveTodoLabel {d d' : Database} {e : DbError} {txOk : Bool}
    {ref : Option Nat} {label : Label}
    (h : d.RemoveTodoLabel txOk ref label = .err e d') : d' = d := by
  unfold Database.RemoveTodoLabel at h
  cases ref with
  | none => cases h
  | some i =>
    dsimp only at h
    cases hf : findTodo d i with
    | none => rw [hf] at h; cases h
    | some t =>
      rw [hf] at h
      dsimp only at h
      split_ifs at h <;> cases h <;> rfl

/-- A sample todo for concrete test states. -/
def sampleTodo (i : Nat) (r : Int) (s : SName) : Todo :=
  { id := i, title := "t", description := "", labels := [], rank := r,
    status := s, createdDatetime := 0, updatedDatetime := 0 }

/-- The mirror of an empty store (fresh database file). -/
def dbEmpty : Database :=
  { openTodos := [], closedTodos := [], onHoldTodos := [], doneTodos := [],
    abandonedTodos := [], labels := [] }

/-- A mirror whose closed list is at the `MaxClosedTodos` capacity. -/
def dbFullClosed : Database :=
  { openTodos := [sampleTodo 9 0 .sopen],
    closedTodos := [sampleTodo 1 0 .sclosed, sampleTodo 2 1 .sclosed,
      sampleTodo 3 2 .sclosed, sampleTodo 4 3 .sclosed, sampleTodo 5 4 .sclosed],
    onHoldTodos := [], doneTodos := [], abandonedTodos := [], labels := [] }

/-- A mirror with two open todos. -/
def dbTwoOpen : Database :=
  { openTodos := [sampleTodo 1 0 .sopen, sampleTodo 2 1 .sopen],
    closedTodos := [], onHoldTodos := [], doneTodos := [],
    abandonedTodos := [], labels := [] }

/-- C3: every store operation that returns an error — validation or
failed/rolled-back transaction alike — leaves the in-memory mirror
exactly as it was: each status's ordered task sequence, the labels
collection, and (since the whole mirror is unchanged) every task's
fields. -/
theorem c3_error_leaves_mirror_unchanged (d : Database) (op : Op) (e : DbError)
    (d' : Database) (h : applyOp d op = .err e d') :
    d' = d ∧ (∀ s : SName, d'.todosOf s = d.todosOf s) ∧ d'.labels = d.labels := by
  have hd : d' = d := by
    cases op with
    | newTodo txOk newId title description now => exact err_frame_NewTodo h
    | updateTodo txOk ref title description => exact err_frame_UpdateTodo h
    | addTodoLabel txOk ref label => exact err_frame_AddTodoLabel h
    | removeTodoLabel txOk ref label => exact err_frame_RemoveTodoLabel h
    | changeStatus txOk ref oldS newS => exact err_frame_ChangeStatus h
    | moveUp txOk ref => exact err_frame_MoveUp h
    | moveDown txOk ref => exact err_frame_MoveDown h
  exact ⟨hd, fun s => by rw [hd], by rw [hd]⟩

theorem c3_witness :
    applyOp dbEmpty (.updateTodo true none "x" "") = .err .nilTodo dbEmpty ∧
    dbEmpty = dbEmpty := by
  refine ⟨by rfl, ?_⟩
  exact (c3_error_leaves_mirror_unchanged dbEmpty (.updateTodo true none "x" "")
    .nilTodo dbEmpty (by rfl)).1

/-- C4 counterexample: `ChangeStatus(t, closed, closed)` on a mirror
whose closed list is full fails with `MaxClosedTodos`, not with the
no-status-change error, because `validateStatusChange` checks the
capacity of the closed list before it compares the two statuses. -/
theorem c4_counterexample :
    dbFullClosed.ChangeStatus true (some 1) .sclosed .sclosed =
      .err .maxClosedTodos dbFullClosed ∧
    DbError.maxClosedTodos ≠ DbError.invalidTodoMoveNoStatusChange := by
  constructor
  · rfl
  · decide

/-- C4 (amended): `ChangeStatus` with target equal to current status
fails with the NoStatusChange error — unless the shared status is
`closed` and the closed list is already at capacity, in which case the
capacity check fires first and the call fails with `MaxClosedTodos`
instead.  Either way nothing is mutated. -/
theorem c4_same_status_no_change (d : Database) (txOk : Bool) (i : Nat) (S : SName)
    (hcap : ¬(S = .sclosed ∧ MaxClosedTodos ≤ (d.todosOf .sclosed).length)) :
    d.ChangeStatus txOk (some i) S S = .err .invalidTodoMoveNoStatusChange d := by
  unfold Database.ChangeStatus validateStatusChange
  simp only [Option.isNone_some, Bool.false_eq_true, if_false, if_neg hcap,
    if_pos rfl, if_true]

theorem c4_witness :
    ¬(SName.sopen = .sclosed ∧ MaxClosedTodos ≤ (dbTwoOpen.todosOf .sclosed).length) ∧
    dbTwoOpen.ChangeStatus true (some 1) .sopen .sopen =
      .err .invalidTodoMoveNoStatusChange dbTwoOpen :=
  ⟨by decide, c4_same_status_no_change dbTwoOpen true 1 .sopen (by decide)⟩

/-- C5: moving any (non-nil) todo to `closed` while the closed list
already holds `MaxClosedTodos` todos fails with `MaxClosedTodos` and
returns with the mirror untouched — validation precedes the
transaction, so nothing durable is attempted either (the result does
not depend on `txOk`). -/
theorem c5_closed_at_capacity (d : Database) (txOk : Bool) (i : Nat) (oldS : SName)
    (hfull : (d.todosOf .sclosed).length = MaxClosedTodos) :
    d.ChangeStatus txOk (some i) oldS .sclosed = .err .maxClosedTodos d := by
  unfold Database.ChangeStatus validateStatusChange
  simp only [Option.isNone_some, Bool.false_eq_true, if_false]
  rw [if_pos ⟨trivial, by omega⟩]

theorem c5_witness :
    (dbFullClosed.todosOf .sclosed).length = MaxClosedTodos ∧
    dbFullClosed.ChangeStatus true (some 9) .sopen .sclosed =
      .err .maxClosedTodos dbFullClosed :=
  ⟨by decide, c5_closed_at_capacity dbFullClosed true 9 .sopen (by decide)⟩

lemma validate_forbidden_some {d : Database} {i : Nat} {oldS newS : SName}
    (hforb : (oldS = .sclosed ∧ newS = .sopen) ∨ (oldS = .sopen ∧ newS = .sdone) ∨
      (oldS = .sonHold ∧ newS = .sdone)) :
    validateStatusChange d (some i) oldS newS = some .invalidTodoMove := by
  rcases hforb with ⟨h1, h2⟩ | ⟨h1, h2⟩ | ⟨h1, h2⟩ <;> subst h1 <;> subst h2 <;>
    simp [validateStatusChange]

lemma validate_allowed_none {d : Database} {i : Nat} {oldS newS : SName}
    (hne : oldS ≠ newS)
    (hcap : newS = .sclosed → (d.todosOf .sclosed).length < MaxClosedTodos)
    (hforb : ¬((oldS = .sclosed ∧ newS = .sopen) ∨ (oldS = .sopen ∧ newS = .sdone) ∨
      (oldS = .sonHold ∧ newS = .sdone))) :
    validateStatusChange d (some i) oldS newS = none := by
  unfold validateStatusChange
  split_ifs with h1 h2 h3 h4 h5
  · simp at h1
  · exact absurd (hcap h2.1) (by omega)
  · exact absurd h3.symm hne
  · exact absurd (Or.inl ⟨h4.1, h4.2⟩) hforb
  · rcases h5.1 with h | h
    · exact absurd (Or.inr (Or.inl ⟨h, h5.2⟩)) hforb
    · exact absurd (Or.inr (Or.inr ⟨h, h5.2⟩)) hforb
  · rfl

lemma validate_some_invalidMove {d : Database} {ref : Option Nat} {oldS newS : SName}
    (h : validateStatusChange d ref oldS newS = some .invalidTodoMove) :
    (oldS = .sclosed ∧ newS = .sopen) ∨ ((oldS = .sopen ∨ oldS = .sonHold) ∧ newS = .sdone) := by
  unfold validateStatusChange at h
  split_ifs at h with h1 h2 h3 h4 h5 <;> cases h
  · exact Or.inl h4
  · exact Or.inr h5

lemma changeStatus_err_cases {d dr : Database} {e : DbError} {txOk : Bool}
    {ref : Option Nat} {oldS newS : SName}
    (h : d.ChangeStatus txOk ref oldS newS = .err e dr) :
    validateStatusChange d ref oldS newS = some e ∨ e = .storage := by
  unfold Database.ChangeStatus at h
  cases hv : validateStatusChange d ref oldS newS with
  | some e2 =>
    rw [hv] at h
    cases h
    exact Or.inl rfl
  | none =>
    rw [hv] at h
    dsimp only at h
    cases ref with
    | none => cases h
    | some i =>
      dsimp only at h
      cases hf : findTodo d i with
      | none => rw [hf] at h; cases h
      | some t =>
        rw [hf] at h
        dsimp only at h
        split_ifs at h <;> cases h
        exact Or.inr rfl

/-- C6: among calls with a non-nil todo, distinct source and target
statuses, and the closed list below capacity when the target is
`closed`, `ChangeStatus` fails with the IllegalTransition error
exactly for the three forbidden edges closed→open, open→done and
on_hold→done; a forbidden transition returns with the mirror
untouched; on every other pair validation passes entirely. -/
theorem c6_forbidden_transitions (d : Database) (txOk : Bool) (i : Nat)
    (oldS newS : SName) (hne : oldS ≠ newS)
    (hcap : newS = .sclosed → (d.todosOf .sclosed).length < MaxClosedTodos) :
    ((∃ dr, d.ChangeStatus txOk (some i) oldS newS = .err .invalidTodoMove dr) ↔
      ((oldS = .sclosed ∧ newS = .sopen) ∨ (oldS = .sopen ∧ newS = .sdone) ∨
        (oldS = .sonHold ∧ newS = .sdone))) ∧
    (((oldS = .sclosed ∧ newS = .sopen) ∨ (oldS = .sopen ∧ newS = .sdone) ∨
        (oldS = .sonHold ∧ newS = .sdone)) →
      d.ChangeStatus txOk (some i) oldS newS = .err .invalidTodoMove d) ∧
    (¬((oldS = .sclosed ∧ newS = .sopen) ∨ (oldS = .sopen ∧ newS = .sdone) ∨
        (oldS = .sonHold ∧ newS = .sdone)) →
      validateStatusChange d (some i) oldS newS = none) := by
  have hforbRun : ((oldS = .sclosed ∧ newS = .sopen) ∨ (oldS = .sopen ∧ newS = .sdone) ∨
      (oldS = .sonHold ∧ newS = .sdone)) →
      d.ChangeStatus txOk (some i) oldS newS = .err .invalidTodoMove d := by
    intro hforb
    unfold Database.ChangeStatus
    rw [validate_forbidden_some hforb]
  refine ⟨⟨?_, ?_⟩, hforbRun, fun hforb => validate_allowed_none hne hcap hforb⟩
  · rintro ⟨dr, hdr⟩
    rcases changeStatus_err_cases hdr with hv | hst
    · rcases validate_some_invalidMove hv with ⟨h1, h2⟩ | ⟨h1 | h1, h2⟩
      · exact Or.inl ⟨h1, h2⟩
      · exact Or.inr (Or.inl ⟨h1, h2⟩)
      · exact Or.inr (Or.inr ⟨h1, h2⟩)
    · cases hst
  · intro hforb
    exact ⟨d, hforbRun hforb⟩

theorem c6_witness :
    (SName.sopen ≠ SName.sdone) ∧
    ((SName.sdone = SName.sclosed → (dbTwoOpen.todosOf .sclosed).length < MaxClosedTodos)) ∧
    dbTwoOpen.ChangeStatus true (some 1) .sopen .sdone =
      .err .invalidTodoMove dbTwoOpen := by
  refine ⟨by decide, by decide, ?_⟩
  exact (c6_forbidden_transitions dbTwoOpen true 1 .sopen .sdone (by decide)
    (by decide)).2.1 (Or.inr (Or.inl ⟨rfl, rfl⟩))

/-- C7: `NewTodo` with an empty title fails with `EmptyTitle` and
changes nothing; with a non-empty title (and a successful insert) the
new todo is appended at the end of the `open` list with rank equal to
the prior length of that list, status `open`, both timestamps set to
the creation instant, and every other status list and the labels
collection unchanged — visible directly in the record update, which
touches only `openTodos`. -/
theorem c7_newTodo_append (d : Database) (txOk : Bool) (newId : Nat)
    (title description : String) (now : Nat) :
    (title.length = 0 →
      d.NewTodo txOk newId title description now = .err .emptyTitle d) ∧
    (title.length ≠ 0 → txOk = true →
      d.NewTodo txOk newId title description now =
        .ok { d with openTodos := d.openTodos ++
          [{ id := newId, title := title, description := description, labels := [],
             rank := (d.openTodos.length : Int), status := .sopen,
             createdDatetime := now, updatedDatetime := now }] }) := by
  constructor
  · intro h0
    unfold Database.NewTodo
    rw [if_pos h0]
  · intro h0 htx
    unfold Database.NewTodo
    rw [if_neg h0, if_pos htx]

theorem c7_witness :
    ("".length = 0 ∧
      dbTwoOpen.NewTodo true 3 "" "d" 7 = .err .emptyTitle dbTwoOpen) ∧
    ("a".length ≠ 0 ∧
      dbTwoOpen.NewTodo true 3 "a" "d" 7 =
        .ok { dbTwoOpen with openTodos := dbTwoOpen.openTodos ++
          [{ id := 3, title := "a", description := "d", labels := [],
             rank := (dbTwoOpen.openTodos.length : Int), status := .sopen,
             createdDatetime := 7, updatedDatetime := 7 }] }) :=
  ⟨⟨rfl, (c7_newTodo_append dbTwoOpen true 3 "" "d" 7).1 rfl⟩,
   ⟨by decide, (c7_newTodo_append dbTwoOpen true 3 "a" "d" 7).2 (by decide) rfl⟩⟩

/-- C9 counterexample: `AddTodoLabel` with a nil todo does not return
the NilTask error — db.go reads `todo.id` without a nil check, so the
call is a nil-pointer-dereference panic (modelled as `crash`), not an
error return. -/
theorem c9_counterexample :
    dbEmpty.AddTodoLabel true none { id := 1, name := "task" } = .crash dbEmpty ∧
    OpResult.crash dbEmpty ≠ .err .nilTodo dbEmpty := by
  constructor
  · rfl
  · decide

/-- C9 (amended): of the task-modifying operations, `UpdateTodo`,
`ChangeStatus`, `MoveUp` and `MoveDown` return the NilTask error
immediately on a nil todo, with the mirror untouched and before any
durable work (the result does not depend on `txOk`); `AddTodoLabel`
and `RemoveTodoLabel` perform no nil check and instead panic on the
`todo.id` dereference, also before any I/O or mirror change. -/
theorem c9_nil_todo_handling (d : Database) (txOk : Bool)
    (title description : String) (label : Label) (oldS newS : SName) :
    d.UpdateTodo txOk none title description = .err .nilTodo d ∧
    d.ChangeStatus txOk none oldS newS = .err .nilTodo d ∧
    d.MoveUp txOk none = .err .nilTodo d ∧
    d.MoveDown txOk none = .err .nilTodo d ∧
    d.AddTodoLabel txOk none label = .crash d ∧
    d.RemoveTodoLabel txOk none label = .crash d := by
  refine ⟨rfl, ?_, rfl, rfl, rfl, rfl⟩
  unfold Database.ChangeStatus validateStatusChange
  simp

/-- C10: a successful `UpdateTodo` rewrites exactly the updated todo's
title and description: its rank, status, labels and both timestamps
are carried over unchanged (in particular the last-updated timestamp,
which db.go assigns only at creation and never refreshes on edit),
every status list keeps its length and every other todo its position
and value, and the labels collection is untouched. -/
theorem c10_updateTodo_frame (d d' : Database) (txOk : Bool) (i : Nat) (t : Todo)
    (title description : String)
    (hf : findTodo d i = some t)
    (hok : d.UpdateTodo txOk (some i) title description = .ok d') :
    findTodo d' i = some { t with title := title, description := description } ∧
    (∀ s j u, (d.todosOf s).get? j = some u →
      (d'.todosOf s).get? j = some (if u.id = i then
        { u with title := title, description := description } else u)) ∧
    (∀ s : SName, (d'.todosOf s).length = (d.todosOf s).length) ∧
    d'.labels = d.labels := by
  have hid : t.id = i := by simpa using List.find?_some hf
  unfold Database.UpdateTodo at hok
  dsimp only at hok
  split_ifs at hok with h1 h2
  all_goals cases hok
  set g : Todo → Todo := fun u => if u.id = i then
    { u with title := title, description := description } else u with hg
  have hgid : ∀ u : Todo, (g u).id = u.id := by
    intro u
    rw [hg]
    by_cases hu : u.id = i <;> simp [hu]
  refine ⟨?_, ?_, ?_, rfl⟩
  · show (updateTodoIn d i _).allTodos.find? (fun u => u.id == i) = _
    rw [allTodos_updateTodoIn, List.find?_map]
    have hpred : ((fun u : Todo => u.id == i) ∘ g) = (fun u : Todo => u.id == i) := by
      funext u
      simp [Function.comp, hgid u]
    rw [hpred]
    unfold findTodo at hf
    rw [hf]
    simp [hg, hid]
  · intro s j u hu
    rw [todosOf_updateTodoIn, List.get?_map, hu]
    rfl
  · intro s
    rw [todosOf_updateTodoIn, List.length_map]

theorem c10_witness :
    findTodo dbTwoOpen 1 = some (sampleTodo 1 0 .sopen) ∧
    dbTwoOpen.UpdateTodo true (some 1) "x" "y" =
      .ok (updateTodoIn dbTwoOpen 1
        (fun u => { u with title := "x", description := "y" })) ∧
    findTodo (updateTodoIn dbTwoOpen 1
        (fun u => { u with title := "x", description := "y" })) 1 =
      some { sampleTodo 1 0 .sopen with title := "x", description := "y" } := by
  refine ⟨by rfl, by rfl, ?_⟩
  exact (c10_updateTodo_frame dbTwoOpen _ true 1 (sampleTodo 1 0 .sopen) "x" "y"
    (by rfl) (by rfl)).1

lemma set_swap_form (l : List Todo) (j : Nat) (a b : Todo) (hj : 1 ≤ j)
    (hlen : j < l.length) :
    (l.set (j - 1) a).set j b = l.take (j - 1) ++ a :: b :: l.drop (j + 1) := by
  have hjj : j = (j - 1) + 1 := by omega
  nth_rewrite 2 [hjj]
  rw [set_set_swap l (j - 1) a b (by omega)]
  have h2 : j - 1 + 2 = j + 1 := by omega
  rw [h2]

/-- C8: `MoveUp` on the rank-0 todo fails with `CantMoveFirstTodoUp`
and `MoveDown` on the last-ranked todo fails with
`CantMoveLastTodoDown`, in both cases returning the mirror unchanged;
otherwise (on a committing transaction) the moved todo and its
immediate predecessor (`MoveUp`) or successor (`MoveDown`) in the same
status exactly swap: the two list positions are exchanged and their
rank fields adjusted by one each way, with the rest of the list — and
every other status — untouched. -/
theorem c8_moveUp_moveDown (d : Database) (txOk : Bool) (i : Nat) (t : Todo)
    (hInv : StoreInv d) (hf : findTodo d i = some t) :
    (t.rank = 0 → d.MoveUp txOk (some i) = .err .cantMoveFirstTodoUp d) ∧
    (t.rank = ((d.todosOf t.status).length : Int) - 1 →
      d.MoveDown txOk (some i) = .err .cantMoveLastTodoDown d) ∧
    (∀ prev, t.rank ≠ 0 →
      (d.todosOf t.status).get? (t.rank.toNat - 1) = some prev →
      d.MoveUp true (some i) = .ok (d.setTodos t.status
        ((d.todosOf t.status).take (t.rank.toNat - 1) ++
          { t with rank := t.rank - 1 } :: { prev with rank := prev.rank + 1 } ::
          (d.todosOf t.status).drop (t.rank.toNat + 1)))) ∧
    (∀ nxt, t.rank ≠ ((d.todosOf t.status).length : Int) - 1 →
      (d.todosOf t.status).get? (t.rank.toNat + 1) = some nxt →
      d.MoveDown true (some i) = .ok (d.setTodos t.status
        ((d.todosOf t.status).take t.rank.toNat ++
          { nxt with rank := nxt.rank - 1 } :: { t with rank := t.rank + 1 } ::
          (d.todosOf t.status).drop (t.rank.toNat + 2)))) := by
  obtain ⟨hid, h0, hget⟩ := findTodo_deref hInv hf
  have hjlen := get?_some_lt hget
  have hrj : t.rank = (t.rank.toNat : Int) := by omega
  refine ⟨?_, ?_, ?_, ?_⟩
  · intro hz
    unfold Database.MoveUp
    dsimp only
    rw [hf]
    dsimp only
    unfold moveUpCore
    rw [if_pos hz]
  · intro hlast
    unfold Database.MoveDown
    dsimp only
    rw [hf]
    dsimp only
    rw [if_pos hlast.ge]
  · intro prev hne0 hprev
    unfold Database.MoveUp
    dsimp only
    rw [hf]
    dsimp only
    unfold moveUpCore
    rw [if_neg hne0]
    have hgg1 : goGet (d.todosOf t.status) (t.rank - 1) = some prev := by
      unfold goGet
      rw [if_neg (by omega)]
      have he : (t.rank - 1).toNat = t.rank.toNat - 1 := by omega
      rw [he]
      exact hprev
    rw [hgg1]
    dsimp only
    rw [if_pos rfl]
    have hgg2 : goGet (d.todosOf t.status) t.rank = some t := by
      unfold goGet
      rw [if_neg (by omega)]
      exact hget
    rw [hgg2]
    dsimp only
    rw [set_swap_form (d.todosOf t.status) t.rank.toNat _ _ (by omega) hjlen]
  · intro nxt hne hnx
    have hjlen2 := get?_some_lt hnx
    obtain ⟨hnrank, hnstat⟩ := ranked_get? (hInv.1 t.status) hnx
    unfold Database.MoveDown
    dsimp only
    rw [hf]
    dsimp only
    have hlt : ¬(((d.todosOf t.status).length : Int) - 1 ≤ t.rank) := by omega
    rw [if_neg hlt]
    have hgg : goGet (d.todosOf t.status) (t.rank + 1) = some nxt := by
      unfold goGet
      rw [if_neg (by omega)]
      have he : (t.rank + 1).toNat = t.rank.toNat + 1 := by omega
      rw [he]
      exact hnx
    rw [hgg]
    dsimp only
    unfold moveUpCore
    rw [if_neg (by omega : ¬nxt.rank = 0), hnstat]
    have hgg1 : goGet (d.todosOf t.status) (nxt.rank - 1) = some t := by
      unfold goGet
      rw [if_neg (by omega)]
      have he : (nxt.rank - 1).toNat = t.rank.toNat := by omega
      rw [he]
      exact hget
    rw [hgg1]
    dsimp only
    rw [if_pos rfl]
    have hgg2 : goGet (d.todosOf t.status) nxt.rank = some nxt := by
      unfold goGet
      rw [if_neg (by omega)]
      have he : nxt.rank.toNat = t.rank.toNat + 1 := by omega
      rw [he]
      exact hnx
    rw [hgg2]
    dsimp only
    have hnn : nxt.rank.toNat = t.rank.toNat + 1 := by omega
    rw [hnn]
    rw [set_swap_form (d.todosOf t.status) (t.rank.toNat + 1) _ _ (by omega)
      (by omega)]
    have he2 : t.rank.toNat + 1 - 1 = t.rank.toNat := by omega
    rw [he2]
    have he3 : t.rank.toNat + 1 + 1 = t.rank.toNat + 2 := by omega
    rw [he3, hnstat]

theorem c8_witness :
    StoreInv dbTwoOpen ∧
    dbTwoOpen.MoveUp true (some 1) = .err .cantMoveFirstTodoUp dbTwoOpen ∧
    dbTwoOpen.MoveDown true (some 2) = .err .cantMoveLastTodoDown dbTwoOpen ∧
    dbTwoOpen.MoveUp true (some 2) = .ok (dbTwoOpen.setTodos .sopen
      ((dbTwoOpen.todosOf .sopen).take 0 ++
        { sampleTodo 2 1 .sopen with rank := 0 } ::
        { sampleTodo 1 0 .sopen with rank := 1 } ::
        (dbTwoOpen.todosOf .sopen).drop 2)) := by
  have h2 := c8_moveUp_moveDown dbTwoOpen true 2 (sampleTodo 2 1 .sopen)
    (by decide) (by rfl)
  have h1 := c8_moveUp_moveDown dbTwoOpen true 1 (sampleTodo 1 0 .sopen)
    (by decide) (by rfl)
  exact ⟨by decide, h1.1 rfl, h2.2.1 (by decide),
    h2.2.2.1 (sampleTodo 1 0 .sopen) (by decide) (by rfl)⟩

lemma ranked_ranks {s : SName} :
    ∀ {l : List Todo} {k : Int}, ranked s l k →
      l.map Todo.rank = (List.range l.length).map (fun n : Nat => k + (n : Int)) := by
  intro l
  induction l with
  | nil => intro k _; simp
  | cons x xs ih =>
    intro k hr
    obtain ⟨hx, -, hxs⟩ := hr
    rw [List.map_cons, List.length_cons, List.range_succ_eq_map]
    rw [List.map_cons, List.map_map, ih hxs]
    refine List.cons_eq_cons.mpr ⟨by rw [hx]; simp, ?_⟩
    apply List.map_congr_left
    intro n _
    simp only [Function.comp]
    push_cast
    ring

/-- C2: starting from any well-formed mirror (as produced by loading a
store whose durable ranks the store itself wrote) and applying any
sequence of store calls — `NewTodo`, `UpdateTodo`, `AddTodoLabel`,
`RemoveTodoLabel`, `ChangeStatus`, `MoveUp`, `MoveDown`, with
arbitrary arguments, successful or not — every status list holds, at
every position `i`, a todo of rank exactly `i` pointing back at its
status, so its rank multiset is exactly `{0, 1, ..., n-1}` (here: the
rank list is exactly `[0, 1, ..., n-1]` in order). -/
theorem c2_rank_invariant (d0 d : Database) (hInv : StoreInv d0)
    (hr : Reachable d0 d) :
    ∀ s : SName, ranked s (d.todosOf s) 0 ∧
      (d.todosOf s).map Todo.rank =
        (List.range (d.todosOf s).length).map (fun n : Nat => (n : Int)) := by
  intro s
  have h := reachable_preserves hInv hr
  refine ⟨h.1 s, ?_⟩
  rw [ranked_ranks (h.1 s)]
  apply List.map_congr_left
  intro n _
  omega

/-- The todo created by the first `NewTodo` call on an empty store. -/
def dbOneTodo : Todo :=
  { id := 1, title := "a", description := "", labels := [], rank := 0,
    status := .sopen, createdDatetime := 0, updatedDatetime := 0 }

/-- The mirror after creating one todo in the empty store. -/
def dbOne : Database :=
  { openTodos := [dbOneTodo], closedTodos := [], onHoldTodos := [],
    doneTodos := [], abandonedTodos := [], labels := [] }

theorem c2_witness :
    StoreInv dbEmpty ∧ Reachable dbEmpty dbOne ∧
    (ranked .sopen (dbOne.todosOf .sopen) 0 ∧
      (dbOne.todosOf .sopen).map Todo.rank =
        (List.range (dbOne.todosOf .sopen).length).map (fun n : Nat => (n : Int))) := by
  have hstep : Step dbEmpty dbOne := by
    refine ⟨.newTodo true 1 "a" "" 0, ?_, by decide⟩
    intro t ht
    cases ht
  have hreach : Reachable dbEmpty dbOne := Relation.ReflTransGen.single hstep
  exact ⟨by decide, hreach, c2_rank_invariant dbEmpty dbOne (by decide) hreach .sopen⟩

/-- C1: a successful `ChangeStatus` of a mirror todo `t` from its
current status to `newS` appends `t` at the end of the destination
list with its status pointer set to the destination and rank equal to
the destination's previous length (= new length − 1); the source list
loses `t` (its prefix before `t` is untouched and every todo after `t`
— i.e. of larger rank — keeps its position with rank reduced by
exactly 1); every task of the source with rank below `t`'s survives
unchanged; and every other status list is untouched. -/
theorem c1_changeStatus_effect (d d' : Database) (txOk : Bool) (i : Nat) (t : Todo)
    (newS : SName) (hInv : StoreInv d) (hf : findTodo d i = some t)
    (hok : d.ChangeStatus txOk (some i) t.status newS = .ok d') :
    d'.todosOf newS = d.todosOf newS ++
      [{ t with status := newS, rank := ((d.todosOf newS).length : Int) }] ∧
    d'.todosOf t.status = (d.todosOf t.status).take t.rank.toNat ++
      ((d.todosOf t.status).drop (t.rank.toNat + 1)).map
        (fun u => { u with rank := u.rank - 1 }) ∧
    (∀ s : SName, s ≠ t.status → s ≠ newS → d'.todosOf s = d.todosOf s) ∧
    (∀ u ∈ d.todosOf t.status, t.rank < u.rank →
      ({ u with rank := u.rank - 1 } : Todo) ∈ d'.todosOf t.status) ∧
    (∀ u ∈ d.todosOf t.status, u.rank < t.rank → u ∈ d'.todosOf t.status) := by
  obtain ⟨hv, htx, i2, t2, href, hf2, hb, hd'⟩ := ChangeStatus_ok_shape hok
  cases Option.some.inj href
  rw [hf] at hf2
  cases Option.some.inj hf2
  obtain ⟨-, hne, -⟩ := validate_none hv
  obtain ⟨hid, h0, hget⟩ := findTodo_deref hInv hf
  subst hd'
  have htd := localStatusChange_todosOf d t t.status newS hne
  have hb1 : (localStatusChange d t t.status newS).todosOf t.status =
      (d.todosOf t.status).take t.rank.toNat ++
      ((d.todosOf t.status).drop (t.rank.toNat + 1)).map
        (fun u => { u with rank := u.rank - 1 }) := by
    rw [htd t.status, if_neg (fun h => hne h.symm), if_pos rfl]
  refine ⟨?_, hb1, ?_, ?_, ?_⟩
  · rw [htd newS, if_pos rfl]
  · intro s h1 h2
    rw [htd s, if_neg h2, if_neg h1]
  · intro u hu hrank
    rw [hb1]
    apply List.mem_append_right
    obtain ⟨hsu, hgeu, hgetu⟩ := ranked_mem (hInv.1 t.status) hu
    simp only [Int.sub_zero] at hgetu
    have hkk : t.rank.toNat + 1 + (u.rank.toNat - (t.rank.toNat + 1)) =
        u.rank.toNat := by omega
    have hgd : ((d.todosOf t.status).drop (t.rank.toNat + 1)).get?
        (u.rank.toNat - (t.rank.toNat + 1)) = some u := by
      rw [List.get?_drop, hkk]
      exact hgetu
    exact List.mem_map_of_mem _ (List.get?_mem hgd)
  · intro u hu hrank
    rw [hb1]
    apply List.mem_append_left
    obtain ⟨hsu, hgeu, hgetu⟩ := ranked_mem (hInv.1 t.status) hu
    simp only [Int.sub_zero] at hgetu
    have hgt : ((d.todosOf t.status).take t.rank.toNat).get? u.rank.toNat =
        some u := by
      rw [List.get?_take (by omega)]
      exact hgetu
    exact List.get?_mem hgt

theorem c1_witness :
    StoreInv dbTwoOpen ∧
    findTodo dbTwoOpen 1 = some (sampleTodo 1 0 .sopen) ∧
    dbTwoOpen.ChangeStatus true (some 1) .sopen .sclosed =
      .ok (localStatusChange dbTwoOpen (sampleTodo 1 0 .sopen) .sopen .sclosed) ∧
    (localStatusChange dbTwoOpen (sampleTodo 1 0 .sopen) .sopen .sclosed).todosOf
        .sclosed =
      dbTwoOpen.todosOf .sclosed ++
        [{ sampleTodo 1 0 .sopen with
            status := .sclosed, rank := ((dbTwoOpen.todosOf .sclosed).length : Int) }] ∧
    (localStatusChange dbTwoOpen (sampleTodo 1 0 .sopen) .sopen .sclosed).todosOf
        .sopen =
      (dbTwoOpen.todosOf .sopen).take 0 ++
        ((dbTwoOpen.todosOf .sopen).drop 1).map
          (fun u => { u with rank := u.rank - 1 }) := by
  have h := c1_changeStatus_effect dbTwoOpen
    (localStatusChange dbTwoOpen (sampleTodo 1 0 .sopen) .sopen .sclosed) true 1
    (sampleTodo 1 0 .sopen) .sclosed (by decide) (by rfl) (by decide)
  exact ⟨by decide, by rfl, by decide, h.1, h.2.1⟩
